import Mathlib

/-
Verification development for the integer-only wireframe cube renderer
(`fast_rotating_cube.py`): trigonometric lookup tables, fixed-point rotation,
orthographic projection, Bresenham line rasterization with pixel tracking,
differential framebuffer updates, and the animation driver loop.

Python semantics used throughout the embedding:
  - `//` on ints is floor division, embedded as `Int.fdiv`;
  - `%` on ints with a positive modulus yields a result in `[0, modulus)`,
    embedded as `Int.emod`.
-/

-- Matrix dimensions (the `getenv` defaults: MATRIX_WIDTH = MATRIX_HEIGHT = 64).
def MATRIX_WIDTH : Int := 64
def MATRIX_HEIGHT : Int := 64

-- Sine/cosine lookup tables, scaled by 1000: entry i is
-- `int(math.sin(i * pi / 180) * 1000)` (resp. cos) evaluated over IEEE-754
-- doubles exactly as the module-level loop in the source builds them; the
-- resulting 360 integers are embedded as literals.
def SINE_TABLE : List Int :=
  [0, 17, 34, 52, 69, 87, 104, 121, 139, 156, 173, 190, 207, 224, 241, 258, 275, 292, 309, 325, 342, 358, 374, 390, 406, 422, 438, 453, 469, 484, 499, 515, 529, 544, 559, 573, 587, 601, 615, 629, 642, 656, 669, 681, 694, 707, 719, 731, 743, 754, 766, 777, 788, 798, 809, 819, 829, 838, 848, 857, 866, 874, 882, 891, 898, 906, 913, 920, 927, 933, 939, 945, 951, 956, 961, 965, 970, 974, 978, 981, 984, 987, 990, 992, 994, 996, 997, 998, 999, 999, 1000, 999, 999, 998, 997, 996, 994, 992, 990, 987, 984, 981, 978, 974, 970, 965, 961, 956, 951, 945, 939, 933, 927, 920, 913, 906, 898, 891, 882, 874, 866, 857, 848, 838, 829, 819, 809, 798, 788, 777, 766, 754, 743, 731, 719, 707, 694, 681, 669, 656, 642, 629, 615, 601, 587, 573, 559, 544, 529, 515, 499, 484, 469, 453, 438, 422, 406, 390, 374, 358, 342, 325, 309, 292, 275, 258, 241, 224, 207, 190, 173, 156, 139, 121, 104, 87, 69, 52, 34, 17, 0, -17, -34, -52, -69, -87, -104, -121, -139, -156, -173, -190, -207, -224, -241, -258, -275, -292, -309, -325, -342, -358, -374, -390, -406, -422, -438, -453, -469, -484, -500, -515, -529, -544, -559, -573, -587, -601, -615, -629, -642, -656, -669, -681, -694, -707, -719, -731, -743, -754, -766, -777, -788, -798, -809, -819, -829, -838, -848, -857, -866, -874, -882, -891, -898, -906, -913, -920, -927, -933, -939, -945, -951, -956, -961, -965, -970, -974, -978, -981, -984, -987, -990, -992, -994, -996, -997, -998, -999, -999, -1000, -999, -999, -998, -997, -996, -994, -992, -990, -987, -984, -981, -978, -974, -970, -965, -961, -956, -951, -945, -939, -933, -927, -920, -913, -906, -898, -891, -882, -874, -866, -857, -848, -838, -829, -819, -809, -798, -788, -777, -766, -754, -743, -731, -719, -707, -694, -681, -669, -656, -642, -629, -615, -601, -587, -573, -559, -544, -529, -515, -500, -484, -469, -453, -438, -422, -406, -390, -374, -358, -342, -325, -309, -292, -275, -258, -241, -224, -207, -190, -173, -156, -139, -121, -104, -87, -69, -52, -34, -17]

def COSINE_TABLE : List Int :=
  [1000, 999, 999, 998, 997, 996, 994, 992, 990, 987, 984, 981, 978, 974, 970, 965, 961, 956, 951, 945, 939, 933, 927, 920, 913, 906, 898, 891, 882, 874, 866, 857, 848, 838, 829, 819, 809, 798, 788, 777, 766, 754, 743, 731, 719, 707, 694, 681, 669, 656, 642, 629, 615, 601, 587, 573, 559, 544, 529, 515, 500, 484, 469, 453, 438, 422, 406, 390, 374, 358, 342, 325, 309, 292, 275, 258, 241, 224, 207, 190, 173, 156, 139, 121, 104, 87, 69, 52, 34, 17, 0, -17, -34, -52, -69, -87, -104, -121, -139, -156, -173, -190, -207, -224, -241, -258, -275, -292, -309, -325, -342, -358, -374, -390, -406, -422, -438, -453, -469, -484, -499, -515, -529, -544, -559, -573, -587, -601, -615, -629, -642, -656, -669, -681, -694, -707, -719, -731, -743, -754, -766, -777, -788, -798, -809, -819, -829, -838, -848, -857, -866, -874, -882, -891, -898, -906, -913, -920, -927, -933, -939, -945, -951, -956, -961, -965, -970, -974, -978, -981, -984, -987, -990, -992, -994, -996, -997, -998, -999, -999, -1000, -999, -999, -998, -997, -996, -994, -992, -990, -987, -984, -981, -978, -974, -970, -965, -961, -956, -951, -945, -939, -933, -927, -920, -913, -906, -898, -891, -882, -874, -866, -857, -848, -838, -829, -819, -809, -798, -788, -777, -766, -754, -743, -731, -719, -707, -694, -681, -669, -656, -642, -629, -615, -601, -587, -573, -559, -544, -529, -515, -500, -484, -469, -453, -438, -422, -406, -390, -374, -358, -342, -325, -309, -292, -275, -258, -241, -224, -207, -190, -173, -156, -139, -121, -104, -87, -69, -52, -34, -17, 0, 17, 34, 52, 69, 87, 104, 121, 139, 156, 173, 190, 207, 224, 241, 258, 275, 292, 309, 325, 342, 358, 374, 390, 406, 422, 438, 453, 469, 484, 500, 515, 529, 544, 559, 573, 587, 601, 615, 629, 642, 656, 669, 681, 694, 707, 719, 731, 743, 754, 766, 777, 788, 798, 809, 819, 829, 838, 848, 857, 866, 874, 882, 891, 898, 906, 913, 920, 927, 933, 939, 945, 951, 956, 961, 965, 970, 974, 978, 981, 984, 987, 990, 992, 994, 996, 997, 998, 999, 999]

-- The framebuffer (`self.bitmap`): a grid of palette color indices, modelled
-- as a total function from integer coordinates to the stored index.
def FB : Type := Int × Int → Nat

-- `0 <= x < MATRIX_WIDTH and 0 <= y < MATRIX_HEIGHT`, the bounds guard used by
-- `set_pixel`, `fast_clear` and `fast_draw_line`.
def inBounds (x y : Int) : Prop :=
  0 ≤ x ∧ x < MATRIX_WIDTH ∧ 0 ≤ y ∧ y < MATRIX_HEIGHT

instance (x y : Int) : Decidable (inBounds x y) := by
  unfold inBounds; infer_instance

-- `set_pixel` (source lines 130-133): guarded single-pixel write.
def set_pixel (fb : FB) (x y : Int) (color_index : Nat) : FB :=
  if inBounds x y then fun p => if p = (x, y) then color_index else fb p
  else fb

-- The loop body of `fast_clear` (source lines 126-128): guarded clear of one
-- pixel to palette index 0 (the background).
def clear_pixel (fb : FB) (x y : Int) : FB :=
  if inBounds x y then fun p => if p = (x, y) then 0 else fb p
  else fb

-- `fast_clear` (source lines 124-128): clear each listed pixel that is
-- within bounds.
def fast_clear (fb : FB) (pixels_to_clear : List (Int × Int)) : FB :=
  pixels_to_clear.foldl (fun f r => clear_pixel f r.1 r.2) fb

-- Table lookup `SINE_TABLE[a % 360]` (Python `%` on a positive modulus).
def sinT (a : Int) : Int := SINE_TABLE.getD (a % 360).toNat 0

def cosT (a : Int) : Int := COSINE_TABLE.getD (a % 360).toNat 0

-- `fast_rotate_point` (source lines 135-162), with the three instance angles
-- passed as arguments.  Python `//` is floor division: `Int.fdiv`.
def fast_rotate_point (point : Int × Int × Int) (ax ay az : Int) :
    Int × Int × Int :=
  let x := point.1
  let y := point.2.1
  let z := point.2.2
  let sin_x := sinT ax
  let cos_x := cosT ax
  let sin_y := sinT ay
  let cos_y := cosT ay
  let sin_z := sinT az
  let cos_z := cosT az
  -- Rotate around X-axis
  let y1 := (y * cos_x - z * sin_x).fdiv 1000
  let z1 := (y * sin_x + z * cos_x).fdiv 1000
  -- Rotate around Y-axis
  let x2 := (x * cos_y + z1 * sin_y).fdiv 1000
  let z2 := (-x * sin_y + z1 * cos_y).fdiv 1000
  -- Rotate around Z-axis
  let x3 := (x2 * cos_z - y1 * sin_z).fdiv 1000
  let y3 := (x2 * sin_z + y1 * cos_z).fdiv 1000
  (x3, y3, z2)

-- `self.scale = min(MATRIX_WIDTH, MATRIX_HEIGHT) * 300` (source line 94).
def scale : Int := min MATRIX_WIDTH MATRIX_HEIGHT * 300

-- `self.center_x = (MATRIX_WIDTH * 1000) // 2` (source lines 97-98).
def center_x : Int := (MATRIX_WIDTH * 1000).fdiv 2

def center_y : Int := (MATRIX_HEIGHT * 1000).fdiv 2

-- `fast_project_to_2d` (source lines 164-172).
def fast_project_to_2d (point : Int × Int × Int) : Int × Int :=
  let x := point.1
  let y := point.2.1
  let screen_x := ((x * scale).fdiv 1000 + center_x).fdiv 1000
  let screen_y := ((y * scale).fdiv 1000 + center_y).fdiv 1000
  (screen_x, screen_y)

-- The `while True` loop of `fast_draw_line` (source lines 185-201), returning
-- the list of visited points in order.  The loop breaks once `(x, y)` reaches
-- `(x2, y2)`; the embedding supplies enough fuel (`dx + dy + 1` at the top
-- level) and `bresAux_bspec` below proves the break is always reached.
def bresAux (x2 y2 dx dy x_step y_step : Int) :
    Nat → Int → Int → Int → List (Int × Int)
  | 0, _, _, _ => []
  | Nat.succ n, x, y, error =>
    (x, y) ::
      (if x = x2 ∧ y = y2 then []
       else
         let error2 := 2 * error
         let x' := if error2 > -dy then x + x_step else x
         let e' := if error2 > -dy then error - dy else error
         let y' := if error2 < dx then y + y_step else y
         let e'' := if error2 < dx then e' + dx else e'
         bresAux x2 y2 dx dy x_step y_step n x' y' e'')

-- The visited points of `fast_draw_line(x1, y1, x2, y2, ...)` (source lines
-- 174-201): `dx = abs(x2 - x1)`, `dy = abs(y2 - y1)`, steps ±1, initial
-- error `dx - dy`.
def bresenham (x1 y1 x2 y2 : Int) : List (Int × Int) :=
  let dx := |x2 - x1|
  let dy := |y2 - y1|
  let x_step : Int := if x1 < x2 then 1 else -1
  let y_step : Int := if y1 < y2 then 1 else -1
  bresAux x2 y2 dx dy x_step y_step (dx.toNat + dy.toNat + 1) x1 y1 (dx - dy)

-- `fast_draw_line` (source lines 174-201): at each visited in-bounds point the
-- loop writes `color_index` to the bitmap and inserts the point into
-- `current_pixels`.  The write is the same guarded assignment as `set_pixel`.
def fast_draw_line (fb : FB) (current_pixels : List (Int × Int))
    (x1 y1 x2 y2 : Int) (color_index : Nat) : FB × List (Int × Int) :=
  let pts := bresenham x1 y1 x2 y2
  (pts.foldl (fun f r => set_pixel f r.1 r.2 color_index) fb,
   current_pixels ++ pts.filter (fun r => decide (inBounds r.1 r.2)))

-- The cube vertices, scaled by 1000 (source lines 64-73).
def vertices : List (Int × Int × Int) :=
  [(-1000, -1000, -1000), (1000, -1000, -1000),
   (1000, 1000, -1000), (-1000, 1000, -1000),
   (-1000, -1000, 1000), (1000, -1000, 1000),
   (1000, 1000, 1000), (-1000, 1000, 1000)]

-- The cube edges (source lines 76-83).
def edges : List (Nat × Nat) :=
  [(0, 1), (1, 2), (2, 3), (3, 0),
   (4, 5), (5, 6), (6, 7), (7, 4),
   (0, 4), (1, 5), (2, 6), (3, 7)]

def back_edges : List (Nat × Nat) := [(0, 1), (1, 2), (2, 3), (3, 0)]

def front_edges : List (Nat × Nat) := [(4, 5), (5, 6), (6, 7), (7, 4)]

-- Color selection in `fast_draw_cube` (source lines 219-224): red (1) for
-- back-face edges, green (2) for front-face edges, blue (3) otherwise.
def edge_color (e : Nat × Nat) : Nat :=
  if e ∈ back_edges then 1 else if e ∈ front_edges then 2 else 3

-- `fast_draw_cube` (source lines 203-237): transform all vertices, draw the
-- twelve edges accumulating the current frame's pixel set, clear exactly
-- `previous_pixels - current_pixels`, and return the new framebuffer together
-- with the new `previous_pixels`.
def fast_draw_cube (fb : FB) (previous_pixels : List (Int × Int))
    (ax ay az : Int) : FB × List (Int × Int) :=
  let tv := vertices.map fun v => fast_project_to_2d (fast_rotate_point v ax ay az)
  let st := edges.foldl
    (fun (s : FB × List (Int × Int)) e =>
      let a := tv.getD e.1 (0, 0)
      let b := tv.getD e.2 (0, 0)
      fast_draw_line s.1 s.2 a.1 a.2 b.1 b.2 (edge_color e))
    (fb, [])
  let pixels_to_clear := previous_pixels.filter fun p => decide (p ∉ st.2)
  (fast_clear st.1 pixels_to_clear, st.2)

-- The Frame Differ in isolation (source lines 232-234): clear exactly
-- `previous_pixels - current_pixels`.
def reconcile (fb : FB) (previous_pixels current_pixels : List (Int × Int)) :
    FB :=
  fast_clear fb (previous_pixels.filter fun p => decide (p ∉ current_pixels))

-- `update_rotation` (source lines 239-243) with `rotation_speed = 3`:
-- `int(3 * 0.7)` evaluates to 2 and `int(3 * 0.5)` to 1 over Python floats.
def update_rotation (a : Int × Int × Int) : Int × Int × Int :=
  ((a.1 + 3) % 360, (a.2.1 + 2) % 360, (a.2.2 + 1) % 360)

-- The animation driver's per-run mutable state.
structure CubeState where
  fb : FB
  previous_pixels : List (Int × Int)
  angles : Int × Int × Int

-- One cycle of the `while True` loop (source lines 264-290): draw the current
-- frame, then advance the rotation angles.
def animation_step (s : CubeState) : CubeState :=
  let r := fast_draw_cube s.fb s.previous_pixels s.angles.1 s.angles.2.1 s.angles.2.2
  ⟨r.1, r.2, update_rotation s.angles⟩

-- State at loop entry: framebuffer fully cleared by the initial clear (source
-- lines 254-257), empty previous-pixel set, all angles zero.
def init_state : CubeState := ⟨fun _ => 0, [], (0, 0, 0)⟩

-- State after n animation cycles.
def run_frames : Nat → CubeState
  | 0 => init_state
  | n + 1 => animation_step (run_frames n)

-- The unguarded assignment `self.bitmap[x, y] = 0` used by the full-display
-- clears (source lines 254-257 and 295-299); its indices always come from
-- `range`, hence are in bounds.
def write0 (g : FB) (x y : Int) : FB := fun p => if p = (x, y) then 0 else g p

-- The cleanup clear on every loop exit (source lines 295-299):
-- `for y in range(MATRIX_HEIGHT): for x in range(MATRIX_WIDTH): bitmap[x,y]=0`.
def clear_all (fb : FB) : FB :=
  (List.range MATRIX_HEIGHT.toNat).foldl
    (fun f (y : Nat) =>
      (List.range MATRIX_WIDTH.toNat).foldl
        (fun g (x : Nat) => write0 g (x : Int) (y : Int)) f)
    fb

-- The framebuffer handed back when `run_animation` exits after n cycles
-- (duration elapsed or KeyboardInterrupt): the `finally` block runs the full
-- clear before returning control.
def run_animation_exit (n : Nat) : FB := clear_all (run_frames n).fb

-- The generic 2D rotation step named by the spec:
-- `newA = (a*cos - b*sin) // 1000`, `newB = (a*sin + b*cos) // 1000`.
def rotPair (a b s c : Int) : Int × Int :=
  ((a * c - b * s).fdiv 1000, (a * s + b * c).fdiv 1000)

-- Modelled from the claim's words (C1), for comparison with the source: all
-- three axis rotations use `newA = (a*cos - b*sin) / 1000`,
-- `newB = (a*sin + b*cos) / 1000` on the pairs (y,z), (x,z), (x,y), with
-- division truncating toward zero (`Int.div`) and tables read at angle mod 360.
def claimed_rotate (point : Int × Int × Int) (ax ay az : Int) :
    Int × Int × Int :=
  let x := point.1
  let y := point.2.1
  let z := point.2.2
  let y1 := (y * cosT ax - z * sinT ax).tdiv 1000
  let z1 := (y * sinT ax + z * cosT ax).tdiv 1000
  let x2 := (x * cosT ay - z1 * sinT ay).tdiv 1000
  let z2 := (x * sinT ay + z1 * cosT ay).tdiv 1000
  let x3 := (x2 * cosT az - y1 * sinT az).tdiv 1000
  let y3 := (x2 * sinT az + y1 * cosT az).tdiv 1000
  (x3, y3, z2)

-- Angle state after n calls to `update_rotation`.
def iterate_update : Nat → (Int × Int × Int) → Int × Int × Int
  | 0, a => a
  | n + 1, a => update_rotation (iterate_update n a)

def angles_in_range (a : Int × Int × Int) : Prop :=
  0 ≤ a.1 ∧ a.1 < 360 ∧ 0 ≤ a.2.1 ∧ a.2.1 < 360 ∧ 0 ≤ a.2.2 ∧ a.2.2 < 360

-- Modelled from the spec (C9): `screenX = (x * scale / 1000 + centerX) / 1000`,
-- `screenY = (y * scale / 1000 + centerY) / 1000`, with
-- `scale = min(matrixWidth, matrixHeight) * 300` and
-- `centerX/Y = matrixDimension * 1000 / 2`, integer division as in the code.
def spec_project (x y : Int) : Int × Int :=
  (((x * (min MATRIX_WIDTH MATRIX_HEIGHT * 300)).fdiv 1000 +
      (MATRIX_WIDTH * 1000).fdiv 2).fdiv 1000,
   ((y * (min MATRIX_WIDTH MATRIX_HEIGHT * 300)).fdiv 1000 +
      (MATRIX_HEIGHT * 1000).fdiv 2).fdiv 1000)

-- 8-connectedness of two consecutive path pixels: distinct, and each
-- coordinate moves by at most one.
def adjacent8 (p q : Int × Int) : Prop :=
  p ≠ q ∧ |q.1 - p.1| ≤ 1 ∧ |q.2 - p.2| ≤ 1

-- The point of the Bresenham loop that still has p x-steps and q y-steps to
-- take before reaching (x2, y2).
def bpt (x2 y2 x_step y_step : Int) (p q : Nat) : Int × Int :=
  (x2 - x_step * p, y2 - y_step * q)

-- Everything the claims need about a (suffix of a) Bresenham visit list
-- starting p x-steps and q y-steps away from the endpoint.
def BSpec (x2 y2 x_step y_step : Int) (p q : Nat) (L : List (Int × Int)) :
    Prop :=
  L.head? = some (bpt x2 y2 x_step y_step p q) ∧
  L.getLast? = some (x2, y2) ∧
  L.Chain' adjacent8 ∧
  L.Nodup ∧
  (p + 1 ≤ L.length ∧ q + 1 ≤ L.length ∧ L.length ≤ p + q + 1) ∧
  (∀ r ∈ L, ∃ p' q', p' ≤ p ∧ q' ≤ q ∧ r = bpt x2 y2 x_step y_step p' q') ∧
  (∀ r ∈ L.tail, ∃ p' q',
      p' ≤ p ∧ q' ≤ q ∧ p' + q' < p + q ∧ r = bpt x2 y2 x_step y_step p' q')

-- Invariant carried across the twelve per-edge rasterization calls: every
-- accumulated pixel is lit and in bounds, and nothing else changed.
def DrawInv (fb0 fb : FB) (curr : List (Int × Int)) : Prop :=
  (∀ p ∈ curr, fb p ≠ 0 ∧ inBounds p.1 p.2) ∧
  (∀ p, p ∉ curr → fb p = fb0 p)

-- The per-frame invariant of the animation driver: the lit framebuffer pixels
-- are exactly the stored previous-frame pixel set, which is within bounds.
def fb_inv (s : CubeState) : Prop :=
  (∀ p, s.fb p ≠ 0 ↔ p ∈ s.previous_pixels) ∧
  (∀ p ∈ s.previous_pixels, inBounds p.1 p.2)

-- Both line endpoints fall off the same side of the matrix.
def same_side_out (x1 y1 x2 y2 : Int) : Prop :=
  (x1 < 0 ∧ x2 < 0) ∨ (MATRIX_WIDTH ≤ x1 ∧ MATRIX_WIDTH ≤ x2) ∨
  (y1 < 0 ∧ y2 < 0) ∨ (MATRIX_HEIGHT ≤ y1 ∧ MATRIX_HEIGHT ≤ y2)

-- Sanity checks for the Python division/modulus embedding.
example : Int.fdiv (-707) 1000 = -1 := by decide
example : Int.tdiv (-707) 1000 = 0 := by decide
example : Int.emod (-30) 360 = 330 := by decide

lemma set_pixel_apply (fb : FB) (x y : Int) (c : Nat) (p : Int × Int) :
    set_pixel fb x y c p = if p = (x, y) ∧ inBounds x y then c else fb p := by
  by_cases h : inBounds x y <;> by_cases hp : p = (x, y) <;>
    simp [set_pixel, h, hp]

lemma clear_pixel_apply (fb : FB) (x y : Int) (p : Int × Int) :
    clear_pixel fb x y p = if p = (x, y) ∧ inBounds x y then 0 else fb p := by
  by_cases h : inBounds x y <;> by_cases hp : p = (x, y) <;>
    simp [clear_pixel, h, hp]

lemma fast_clear_apply (l : List (Int × Int)) (fb : FB) (p : Int × Int) :
    fast_clear fb l p = if p ∈ l ∧ inBounds p.1 p.2 then 0 else fb p := by
  induction l generalizing fb with
  | nil => simp [fast_clear]
  | cons r t ih =>
    have h := ih (clear_pixel fb r.1 r.2)
    simp only [fast_clear, List.foldl_cons] at h ⊢
    rw [h]
    by_cases hp : p = r
    · subst hp
      by_cases hb : inBounds p.1 p.2 <;> by_cases ht : p ∈ t <;>
        simp [clear_pixel_apply, hb, ht]
    · by_cases ht : p ∈ t <;> by_cases hb : inBounds p.1 p.2 <;>
        simp [clear_pixel_apply, hp, ht, hb]

lemma foldl_set_apply (c : Nat) (pts : List (Int × Int)) (fb : FB)
    (p : Int × Int) :
    (pts.foldl (fun f r => set_pixel f r.1 r.2 c) fb) p =
      if p ∈ pts ∧ inBounds p.1 p.2 then c else fb p := by
  induction pts generalizing fb with
  | nil => simp
  | cons r t ih =>
    have h := ih (set_pixel fb r.1 r.2 c)
    simp only [List.foldl_cons] at h ⊢
    rw [h]
    by_cases hp : p = r
    · subst hp
      by_cases hb : inBounds p.1 p.2 <;> by_cases ht : p ∈ t <;>
        simp [set_pixel_apply, hb, ht]
    · by_cases ht : p ∈ t <;> by_cases hb : inBounds p.1 p.2 <;>
        simp [set_pixel_apply, hp, ht, hb]

/-- C3: `reconcile(prev, curr)` clears to the background color exactly the
in-bounds pixels of the set difference `prev - curr`, and leaves every other
pixel — in particular every pixel of `curr`, even one also in `prev` —
exactly as it was in the framebuffer. -/
theorem reconcile_clears_exactly_diff (fb : FB)
    (previous_pixels current_pixels : List (Int × Int)) (p : Int × Int) :
    reconcile fb previous_pixels current_pixels p =
      if p ∈ previous_pixels ∧ p ∉ current_pixels ∧ inBounds p.1 p.2 then 0
      else fb p := by
  unfold reconcile
  rw [fast_clear_apply]
  by_cases h1 : p ∈ previous_pixels <;> by_cases h2 : p ∈ current_pixels <;>
    by_cases hb : inBounds p.1 p.2 <;> simp [List.mem_filter, h1, h2, hb]

/-- C5: starting from any angle triple in [0, 360), after every number of
`update_rotation` calls (X += 3, Y += int(3*0.7) = 2, Z += int(3*0.5) = 1,
each reduced mod 360) all three angles remain in [0, 360). -/
theorem angles_stay_in_range (a : Int × Int × Int) (h : angles_in_range a)
    (n : Nat) : angles_in_range (iterate_update n a) := by
  induction n with
  | zero => exact h
  | succ n _ =>
    have hstep : ∀ b : Int × Int × Int, angles_in_range (update_rotation b) := by
      intro b
      simp only [update_rotation, angles_in_range]
      omega
    simpa only [iterate_update] using hstep (iterate_update n a)

theorem angles_stay_in_range_witness :
    angles_in_range (iterate_update 7 (0, 0, 0)) :=
  angles_stay_in_range (0, 0, 0) (by simp [angles_in_range]) 7

/-- C6: for a coordinate outside [0, width) x [0, height), both the guarded
pixel write (`set_pixel`) and the guarded pixel clear (the body of
`fast_clear`) leave the framebuffer unchanged — total functions, no error. -/
theorem out_of_bounds_write_is_noop (fb : FB) (x y : Int) (c : Nat)
    (h : ¬ inBounds x y) :
    set_pixel fb x y c = fb ∧ clear_pixel fb x y = fb := by
  constructor <;> simp [set_pixel, clear_pixel, h]

theorem out_of_bounds_write_is_noop_witness :
    set_pixel (fun _ => 0) (-1) 0 5 = (fun _ => (0 : Nat)) ∧
      clear_pixel (fun _ => 0) (-1) 0 = (fun _ => (0 : Nat)) :=
  out_of_bounds_write_is_noop (fun _ => 0) (-1) 0 5 (by decide)

/-- C9: `fast_project_to_2d` is a pure function of the x and y coordinates
alone — the z coordinate never affects the output — and it equals the spec's
orthographic formula `screen = (c * scale / 1000 + center) / 1000` with
`scale = min(width, height) * 300` and `center = dimension * 1000 / 2`. -/
theorem project_pure_and_formula (x y z z' : Int) :
    fast_project_to_2d (x, y, z) = fast_project_to_2d (x, y, z') ∧
      fast_project_to_2d (x, y, z) = spec_project x y :=
  ⟨rfl, rfl⟩

/-- C1 counterexample: at point (0, 0, 1000) with angles (0, 90, 0) the code's
rotation yields (1000, 0, 0), while the rotation described by the claim — the
pattern `newA = (a*cos - b*sin)/1000`, `newB = (a*sin + b*cos)/1000` applied to
the pair (x, z) for the Y-axis, with division truncating toward zero — yields
(-1000, 0, 0): the code's Y-axis step uses the opposite sign convention. -/
theorem rotate_formula_counterexample :
    fast_rotate_point (0, 0, 1000) 0 90 0 = (1000, 0, 0) ∧
      claimed_rotate (0, 0, 1000) 0 90 0 = (-1000, 0, 0) ∧
      fast_rotate_point (0, 0, 1000) 0 90 0 ≠
        claimed_rotate (0, 0, 1000) 0 90 0 := by
  refine ⟨by decide, by decide, by decide⟩

/-- C1 (amended): `fast_rotate_point` applies exactly three 2D rotation steps
of the shape `newA = (a*cos - b*sin) // 1000`, `newB = (a*sin + b*cos) // 1000`
in the fixed order X-axis, Y-axis, Z-axis, with sin/cos read from the tables at
angle mod 360 — but on the coordinate pairs (y, z) for X, (z, x) for Y (not
(x, z): the code's Y-axis step has the opposite sign convention), and (x, y)
for Z, and with Python floor division (`//`, rounding toward negative
infinity) rather than division truncating toward zero. -/
theorem rotate_is_three_axis_steps (x y z ax ay az : Int) :
    fast_rotate_point (x, y, z) ax ay az =
      (let r1 := rotPair y z (sinT ax) (cosT ax)
       let r2 := rotPair r1.2 x (sinT ay) (cosT ay)
       let r3 := rotPair r2.2 r1.1 (sinT az) (cosT az)
       (r3.1, r3.2, r2.1)) := by
  simp only [fast_rotate_point, rotPair]
  ring_nf

/-- C8 counterexample: for the point (0, 1000, 0) and original angles
(90, 0, 0) in [0, 360), rotating with each angle incremented by exactly 360
gives (0, 0, 1000), whose y coordinate is 1000 away from the original — far
beyond the claimed per-axis truncation error bound of 1. -/
theorem rotate_period_counterexample :
    fast_rotate_point (0, 1000, 0) (90 + 360) (0 + 360) (0 + 360) =
        (0, 0, 1000) ∧
      1 < |(fast_rotate_point (0, 1000, 0) (90 + 360) (0 + 360)
              (0 + 360)).2.1 - 1000| := by
  refine ⟨by decide, by decide⟩

/-- C8 (amended): incrementing every angle by exactly 360 leaves the result of
`fast_rotate_point` unchanged — the tables are read at angle mod 360 — so it
returns the same point as rotation by the original angles (not the original
point); and in the particular case of all angles equal to 360 the result is
exactly the original point, with zero truncation error. -/
theorem rotate_mod_360_period (x y z ax ay az : Int) :
    fast_rotate_point (x, y, z) (ax + 360) (ay + 360) (az + 360) =
        fast_rotate_point (x, y, z) ax ay az ∧
      fast_rotate_point (x, y, z) 360 360 360 = (x, y, z) := by
  constructor
  · have h : ∀ a : Int, (a + 360) % 360 = a % 360 := by intro a; omega
    simp only [fast_rotate_point, sinT, cosT, h]
  · have hs : sinT 360 = 0 := by decide
    have hc : cosT 360 = 1000 := by decide
    have hd : (1000 : Int) ≠ 0 := by norm_num
    simp only [fast_rotate_point, hs, hc, mul_zero, zero_mul, sub_zero,
      add_zero, zero_add, neg_zero, Int.mul_fdiv_cancel _ hd]

lemma bpt_inj (x2 y2 sx sy : Int) (hsx : sx = 1 ∨ sx = -1)
    (hsy : sy = 1 ∨ sy = -1) {p q p' q' : Nat}
    (h : bpt x2 y2 sx sy p q = bpt x2 y2 sx sy p' q') : p = p' ∧ q = q' := by
  unfold bpt at h
  rw [Prod.mk.injEq] at h
  obtain ⟨h1, h2⟩ := h
  rcases hsx with rfl | rfl <;> rcases hsy with rfl | rfl <;>
    exact ⟨by omega, by omega⟩

lemma bspec_single (x2 y2 sx sy : Int) :
    BSpec x2 y2 sx sy 0 0 [(x2, y2)] := by
  refine ⟨by simp [bpt], by simp, by simp, by simp, ⟨by simp, by simp, by simp⟩,
    ?_, ?_⟩
  · intro r hr
    simp only [List.mem_singleton] at hr
    exact ⟨0, 0, Nat.le_refl 0, Nat.le_refl 0, by simp [bpt, hr]⟩
  · intro r hr
    simp at hr

lemma bpt_adjacent (x2 y2 sx sy : Int) (hsx : sx = 1 ∨ sx = -1)
    (hsy : sy = 1 ∨ sy = -1) {p q p1 q1 : Nat} (hp1 : p1 ≤ p) (hq1 : q1 ≤ q)
    (hp2 : p ≤ p1 + 1) (hq2 : q ≤ q1 + 1) (hlt : p1 + q1 < p + q) :
    adjacent8 (bpt x2 y2 sx sy p q) (bpt x2 y2 sx sy p1 q1) := by
  refine ⟨?_, ?_, ?_⟩
  · intro hEq
    obtain ⟨e1, e2⟩ := bpt_inj x2 y2 sx sy hsx hsy hEq
    omega
  · show |(x2 - sx * (p1 : Int)) - (x2 - sx * (p : Int))| ≤ 1
    rcases hsx with rfl | rfl
    · have e : (x2 - 1 * (p1 : Int)) - (x2 - 1 * (p : Int)) =
          (p : Int) - (p1 : Int) := by ring
      rw [e, abs_le]
      constructor <;> omega
    · have e : (x2 - (-1) * (p1 : Int)) - (x2 - (-1) * (p : Int)) =
          (p1 : Int) - (p : Int) := by ring
      rw [e, abs_le]
      constructor <;> omega
  · show |(y2 - sy * (q1 : Int)) - (y2 - sy * (q : Int))| ≤ 1
    rcases hsy with rfl | rfl
    · have e : (y2 - 1 * (q1 : Int)) - (y2 - 1 * (q : Int)) =
          (q : Int) - (q1 : Int) := by ring
      rw [e, abs_le]
      constructor <;> omega
    · have e : (y2 - (-1) * (q1 : Int)) - (y2 - (-1) * (q : Int)) =
          (q1 : Int) - (q : Int) := by ring
      rw [e, abs_le]
      constructor <;> omega

lemma bspec_cons (x2 y2 sx sy : Int) (hsx : sx = 1 ∨ sx = -1)
    (hsy : sy = 1 ∨ sy = -1) {p q p1 q1 : Nat} {T : List (Int × Int)}
    (hp1 : p1 ≤ p) (hq1 : q1 ≤ q) (hp2 : p ≤ p1 + 1) (hq2 : q ≤ q1 + 1)
    (hlt : p1 + q1 < p + q) (hT : BSpec x2 y2 sx sy p1 q1 T) :
    BSpec x2 y2 sx sy p q (bpt x2 y2 sx sy p q :: T) := by
  obtain ⟨hhead, hlast, hchain, hnodup, ⟨hlen1, hlen2, hlen3⟩, hmem, htail⟩ := hT
  have hTne : T ≠ [] := by
    intro h
    rw [h] at hhead
    simp at hhead
  refine ⟨rfl, ?_, ?_, ?_, ⟨?_, ?_, ?_⟩, ?_, ?_⟩
  · rcases T with _ | ⟨t, ts⟩
    · exact absurd rfl hTne
    · rw [List.getLast?_cons_cons]
      exact hlast
  · rcases T with _ | ⟨t, ts⟩
    · exact absurd rfl hTne
    · have ht : t = bpt x2 y2 sx sy p1 q1 := by
        simp only [List.head?_cons, Option.some.injEq] at hhead
        exact hhead
      rw [List.chain'_cons]
      subst ht
      exact ⟨bpt_adjacent x2 y2 sx sy hsx hsy hp1 hq1 hp2 hq2 hlt, hchain⟩
  · rw [List.nodup_cons]
    refine ⟨?_, hnodup⟩
    intro hmem'
    obtain ⟨p', q', hp', hq', hEq⟩ := hmem _ hmem'
    obtain ⟨e1, e2⟩ := bpt_inj x2 y2 sx sy hsx hsy hEq
    omega
  · simp only [List.length_cons]
    omega
  · simp only [List.length_cons]
    omega
  · simp only [List.length_cons]
    omega
  · intro r hr
    rcases List.mem_cons.mp hr with rfl | hr'
    · exact ⟨p, q, Nat.le_refl _, Nat.le_refl _, rfl⟩
    · obtain ⟨p', q', h1, h2, h3⟩ := hmem _ hr'
      exact ⟨p', q', Nat.le_trans h1 hp1, Nat.le_trans h2 hq1, h3⟩
  · intro r hr
    obtain ⟨p', q', h1, h2, h3⟩ := hmem _ hr
    exact ⟨p', q', Nat.le_trans h1 hp1, Nat.le_trans h2 hq1, by omega, h3⟩

lemma bres_xstep_ge_one (dx dy : Int) (hdx : 0 ≤ dx) (hdy : 0 ≤ dy)
    {p q : Nat} (hpos : 1 ≤ p + q)
    (hxc : 2 * (dx - dy + (p : Int) * dy - (q : Int) * dx) > -dy) : 1 ≤ p := by
  by_contra hcon
  have hp0 : p = 0 := by omega
  subst hp0
  have hq1 : (1 : Int) ≤ (q : Int) := by exact_mod_cast (by omega : 1 ≤ q)
  have key : 0 ≤ dx * ((q : Int) - 1) := mul_nonneg hdx (by linarith)
  simp only [Nat.cast_zero, zero_mul, add_zero] at hxc
  nlinarith [key]

lemma bres_ystep_ge_one (dx dy : Int) (hdx : 0 ≤ dx) (hdy : 0 ≤ dy)
    {p q : Nat} (hpos : 1 ≤ p + q)
    (hyc : 2 * (dx - dy + (p : Int) * dy - (q : Int) * dx) < dx) : 1 ≤ q := by
  by_contra hcon
  have hq0 : q = 0 := by omega
  subst hq0
  have hp1 : (1 : Int) ≤ (p : Int) := by exact_mod_cast (by omega : 1 ≤ p)
  have key : 0 ≤ dy * ((p : Int) - 1) := mul_nonneg hdy (by linarith)
  simp only [Nat.cast_zero, zero_mul, sub_zero] at hyc
  nlinarith [key]

lemma bres_step_stuck (dx dy : Int) (_hdx : 0 ≤ dx) (_hdy : 0 ≤ dy)
    {p q : Nat} (hpos : 1 ≤ p + q) (hp : (p : Int) ≤ dx) (hq : (q : Int) ≤ dy)
    (hxc : ¬ 2 * (dx - dy + (p : Int) * dy - (q : Int) * dx) > -dy)
    (hyc : ¬ 2 * (dx - dy + (p : Int) * dy - (q : Int) * dx) < dx) :
    False := by
  push_neg at hxc hyc
  have h1 : dx = 0 := by linarith
  have h2 : dy = 0 := by linarith
  rw [h1] at hp
  rw [h2] at hq
  omega

theorem bresAux_bspec (x2 y2 dx dy sx sy : Int) (hdx : 0 ≤ dx) (hdy : 0 ≤ dy)
    (hsx : sx = 1 ∨ sx = -1) (hsy : sy = 1 ∨ sy = -1) :
    ∀ (n : Nat) (p q : Nat), (p : Int) ≤ dx → (q : Int) ≤ dy → p + q < n →
      BSpec x2 y2 sx sy p q
        (bresAux x2 y2 dx dy sx sy n (x2 - sx * (p : Int))
          (y2 - sy * (q : Int)) (dx - dy + (p : Int) * dy - (q : Int) * dx)) := by
  intro n
  induction n with
  | zero =>
    intro p q _ _ h
    exact absurd h (by omega)
  | succ n ih =>
    intro p q hp hq hfuel
    by_cases hpq : p = 0 ∧ q = 0
    · obtain ⟨rfl, rfl⟩ := hpq
      simp only [Nat.cast_zero, mul_zero, zero_mul, sub_zero, add_zero, bresAux]
      rw [if_pos ⟨by trivial, by trivial⟩]
      exact bspec_single x2 y2 sx sy
    · have hpos : 1 ≤ p + q := by
        rcases Nat.eq_zero_or_pos p with h | h
        · rcases Nat.eq_zero_or_pos q with h' | h'
          · exact absurd ⟨h, h'⟩ hpq
          · omega
        · omega
      have hne : ¬ (x2 - sx * (p : Int) = x2 ∧ y2 - sy * (q : Int) = y2) := by
        rintro ⟨h1, h2⟩
        have hp0 : p = 0 := by rcases hsx with rfl | rfl <;> omega
        have hq0 : q = 0 := by rcases hsy with rfl | rfl <;> omega
        exact hpq ⟨hp0, hq0⟩
      by_cases hxc : 2 * (dx - dy + (p : Int) * dy - (q : Int) * dx) > -dy <;>
        by_cases hyc : 2 * (dx - dy + (p : Int) * dy - (q : Int) * dx) < dx
      · -- both coordinates step
        have hp1 : 1 ≤ p := bres_xstep_ge_one dx dy hdx hdy hpos hxc
        have hq1 : 1 ≤ q := bres_ystep_ge_one dx dy hdx hdy hpos hyc
        simp only [bresAux]
        rw [if_neg hne]
        simp only [if_pos hxc, if_pos hyc]
        have ex : x2 - sx * (p : Int) + sx = x2 - sx * ((p - 1 : Nat) : Int) := by
          rw [Nat.cast_sub hp1]
          push_cast
          ring
        have ey : y2 - sy * (q : Int) + sy = y2 - sy * ((q - 1 : Nat) : Int) := by
          rw [Nat.cast_sub hq1]
          push_cast
          ring
        have ee : dx - dy + (p : Int) * dy - (q : Int) * dx - dy + dx =
            dx - dy + ((p - 1 : Nat) : Int) * dy - ((q - 1 : Nat) : Int) * dx := by
          rw [Nat.cast_sub hp1, Nat.cast_sub hq1]
          push_cast
          ring
        rw [ex, ey, ee]
        exact bspec_cons x2 y2 sx sy hsx hsy (by omega) (by omega) (by omega)
          (by omega) (by omega)
          (ih (p - 1) (q - 1) (by omega) (by omega) (by omega))
      · -- only x steps
        have hp1 : 1 ≤ p := bres_xstep_ge_one dx dy hdx hdy hpos hxc
        simp only [bresAux]
        rw [if_neg hne]
        simp only [if_pos hxc, if_neg hyc]
        have ex : x2 - sx * (p : Int) + sx = x2 - sx * ((p - 1 : Nat) : Int) := by
          rw [Nat.cast_sub hp1]
          push_cast
          ring
        have ee : dx - dy + (p : Int) * dy - (q : Int) * dx - dy =
            dx - dy + ((p - 1 : Nat) : Int) * dy - (q : Int) * dx := by
          rw [Nat.cast_sub hp1]
          push_cast
          ring
        rw [ex, ee]
        exact bspec_cons x2 y2 sx sy hsx hsy (by omega) (by omega) (by omega)
          (by omega) (by omega)
          (ih (p - 1) q (by omega) (by omega) (by omega))
      · -- only y steps
        have hq1 : 1 ≤ q := bres_ystep_ge_one dx dy hdx hdy hpos hyc
        simp only [bresAux]
        rw [if_neg hne]
        simp only [if_neg hxc, if_pos hyc]
        have ey : y2 - sy * (q : Int) + sy = y2 - sy * ((q - 1 : Nat) : Int) := by
          rw [Nat.cast_sub hq1]
          push_cast
          ring
        have ee : dx - dy + (p : Int) * dy - (q : Int) * dx + dx =
            dx - dy + (p : Int) * dy - ((q - 1 : Nat) : Int) * dx := by
          rw [Nat.cast_sub hq1]
          push_cast
          ring
        rw [ey, ee]
        exact bspec_cons x2 y2 sx sy hsx hsy (by omega) (by omega) (by omega)
          (by omega) (by omega)
          (ih p (q - 1) (by omega) (by omega) (by omega))
      · exact absurd (bres_step_stuck dx dy hdx hdy hpos hp hq hxc hyc) id

lemma bpt_start (x1 y1 x2 y2 : Int) :
    bpt x2 y2 (if x1 < x2 then (1 : Int) else -1)
      (if y1 < y2 then (1 : Int) else -1)
      (x2 - x1).natAbs (y2 - y1).natAbs = (x1, y1) := by
  unfold bpt
  rw [Prod.mk.injEq]
  constructor <;> split_ifs <;> omega


lemma bresenham_eq_bresAux (x1 y1 x2 y2 : Int) :
    bresenham x1 y1 x2 y2 =
      bresAux x2 y2 ((x2 - x1).natAbs : Int) ((y2 - y1).natAbs : Int)
        (if x1 < x2 then 1 else -1) (if y1 < y2 then 1 else -1)
        ((x2 - x1).natAbs + (y2 - y1).natAbs + 1)
        (x2 - (if x1 < x2 then (1 : Int) else -1) * ((x2 - x1).natAbs : Int))
        (y2 - (if y1 < y2 then (1 : Int) else -1) * ((y2 - y1).natAbs : Int))
        (((x2 - x1).natAbs : Int) - ((y2 - y1).natAbs : Int) +
          ((x2 - x1).natAbs : Int) * ((y2 - y1).natAbs : Int) -
          ((y2 - y1).natAbs : Int) * ((x2 - x1).natAbs : Int)) := by
  simp only [bresenham]
  rw [Int.abs_eq_natAbs (x2 - x1), Int.abs_eq_natAbs (y2 - y1),
    Int.toNat_ofNat, Int.toNat_ofNat]
  have he : (((x2 - x1).natAbs : Int) - ((y2 - y1).natAbs : Int) +
      ((x2 - x1).natAbs : Int) * ((y2 - y1).natAbs : Int) -
      ((y2 - y1).natAbs : Int) * ((x2 - x1).natAbs : Int)) =
      ((x2 - x1).natAbs : Int) - ((y2 - y1).natAbs : Int) := by ring
  have hx : x2 - (if x1 < x2 then (1 : Int) else -1) *
      ((x2 - x1).natAbs : Int) = x1 := by
    split_ifs <;> omega
  have hy : y2 - (if y1 < y2 then (1 : Int) else -1) *
      ((y2 - y1).natAbs : Int) = y1 := by
    split_ifs <;> omega
  rw [he, hx, hy]

theorem bresenham_bspec (x1 y1 x2 y2 : Int) :
    BSpec x2 y2 (if x1 < x2 then (1 : Int) else -1)
      (if y1 < y2 then (1 : Int) else -1)
      (x2 - x1).natAbs (y2 - y1).natAbs (bresenham x1 y1 x2 y2) := by
  have hsx : (if x1 < x2 then (1 : Int) else -1) = 1 ∨
      (if x1 < x2 then (1 : Int) else -1) = -1 := by
    split_ifs <;> simp
  have hsy : (if y1 < y2 then (1 : Int) else -1) = 1 ∨
      (if y1 < y2 then (1 : Int) else -1) = -1 := by
    split_ifs <;> simp
  rw [bresenham_eq_bresAux]
  exact bresAux_bspec x2 y2 ((x2 - x1).natAbs : Int) ((y2 - y1).natAbs : Int)
    (if x1 < x2 then (1 : Int) else -1) (if y1 < y2 then (1 : Int) else -1)
    (Int.natCast_nonneg _) (Int.natCast_nonneg _) hsx hsy
    ((x2 - x1).natAbs + (y2 - y1).natAbs + 1)
    (x2 - x1).natAbs (y2 - y1).natAbs (le_refl _) (le_refl _) (by omega)

lemma bresenham_mem_rect (x1 y1 x2 y2 : Int) :
    ∀ r ∈ bresenham x1 y1 x2 y2,
      min x1 x2 ≤ r.1 ∧ r.1 ≤ max x1 x2 ∧ min y1 y2 ≤ r.2 ∧ r.2 ≤ max y1 y2 := by
  intro r hr
  obtain ⟨-, -, -, -, -, hmem, -⟩ := bresenham_bspec x1 y1 x2 y2
  obtain ⟨p', q', hp', hq', rfl⟩ := hmem r hr
  refine ⟨?_, ?_, ?_, ?_⟩ <;>
    · simp only [bpt, min_def, max_def]
      split_ifs <;> omega

/-- C2: for endpoints inside the matrix, the Bresenham loop of
`fast_draw_line` visits a pixel path that starts at the start point, ends at
the end point, is 8-connected (each step moves at most one in each
coordinate), repeats no pixel, stays in bounds, has between
`max(|dx|,|dy|)+1` and `|dx|+|dy|+1` pixels, and is recorded in full (in
visit order) into the frame pixel set. -/
theorem draw_line_path_properties (x1 y1 x2 y2 : Int)
    (h1 : inBounds x1 y1) (h2 : inBounds x2 y2) :
    (bresenham x1 y1 x2 y2).head? = some (x1, y1) ∧
      (bresenham x1 y1 x2 y2).getLast? = some (x2, y2) ∧
      (bresenham x1 y1 x2 y2).Chain' adjacent8 ∧
      (bresenham x1 y1 x2 y2).Nodup ∧
      (∀ r ∈ bresenham x1 y1 x2 y2, inBounds r.1 r.2) ∧
      max (x2 - x1).natAbs (y2 - y1).natAbs + 1 ≤
        (bresenham x1 y1 x2 y2).length ∧
      (bresenham x1 y1 x2 y2).length ≤
        (x2 - x1).natAbs + (y2 - y1).natAbs + 1 ∧
      ∀ (fb : FB) (curr : List (Int × Int)) (c : Nat),
        (fast_draw_line fb curr x1 y1 x2 y2 c).2 =
          curr ++ bresenham x1 y1 x2 y2 := by
  obtain ⟨hhead, hlast, hchain, hnodup, ⟨hl1, hl2, hl3⟩, hmem, -⟩ :=
    bresenham_bspec x1 y1 x2 y2
  unfold inBounds at h1 h2
  obtain ⟨h1a, h1b, h1c, h1d⟩ := h1
  obtain ⟨h2a, h2b, h2c, h2d⟩ := h2
  have hin : ∀ r ∈ bresenham x1 y1 x2 y2, inBounds r.1 r.2 := by
    intro r hr
    obtain ⟨ha, hb, hc, hd⟩ := bresenham_mem_rect x1 y1 x2 y2 r hr
    exact ⟨le_trans (le_min h1a h2a) ha, lt_of_le_of_lt hb (max_lt h1b h2b),
      le_trans (le_min h1c h2c) hc, lt_of_le_of_lt hd (max_lt h1d h2d)⟩
  refine ⟨?_, hlast, hchain, hnodup, hin, ?_, hl3, ?_⟩
  · rw [hhead, bpt_start]
  · omega
  · intro fb curr c
    simp only [fast_draw_line]
    have hfil : (bresenham x1 y1 x2 y2).filter
        (fun r => decide (inBounds r.1 r.2)) = bresenham x1 y1 x2 y2 := by
      rw [List.filter_eq_self]
      intro a ha
      simp only [decide_eq_true_eq]
      exact hin a ha
    rw [hfil]

theorem draw_line_path_properties_witness :
    (bresenham 0 0 2 1).head? = some (0, 0) ∧
      (bresenham 0 0 2 1).getLast? = some (2, 1) ∧
      (bresenham 0 0 2 1).Chain' adjacent8 ∧
      (bresenham 0 0 2 1).Nodup ∧
      (∀ r ∈ bresenham 0 0 2 1, inBounds r.1 r.2) ∧
      max ((2 : Int) - 0).natAbs ((1 : Int) - 0).natAbs + 1 ≤
        (bresenham 0 0 2 1).length ∧
      (bresenham 0 0 2 1).length ≤
        ((2 : Int) - 0).natAbs + ((1 : Int) - 0).natAbs + 1 ∧
      ∀ (fb : FB) (curr : List (Int × Int)) (c : Nat),
        (fast_draw_line fb curr 0 0 2 1 c).2 = curr ++ bresenham 0 0 2 1 :=
  draw_line_path_properties 0 0 2 1 (by decide) (by decide)

/-- C7 counterexample: both endpoints (-1, 5) and (64, 5) lie outside
[0, 64) x [0, 64), yet `fast_draw_line` between them records (and writes) a
nonempty set of pixels — the horizontal segment crosses the whole matrix. -/
theorem draw_line_offscreen_counterexample :
    ¬ inBounds (-1) 5 ∧ ¬ inBounds 64 5 ∧
      (fast_draw_line (fun _ => 0) [] (-1) 5 64 5 7).2 ≠ [] := by
  refine ⟨by decide, by decide, by decide⟩

/-- C7 (amended): `fast_draw_line` between endpoints that are out of bounds on
the same side of the matrix (both left, both right, both above or both below)
runs to completion — the visit loop still reaches the far endpoint — while
writing nothing to the framebuffer and adding nothing to the frame pixel set.
(With out-of-bounds endpoints on opposite sides the path may cross the matrix
and draw its in-bounds portion.) -/
theorem draw_line_same_side_out_draws_nothing (x1 y1 x2 y2 : Int)
    (h : same_side_out x1 y1 x2 y2) :
    (∀ (fb : FB) (curr : List (Int × Int)) (c : Nat),
        fast_draw_line fb curr x1 y1 x2 y2 c = (fb, curr)) ∧
      (bresenham x1 y1 x2 y2).getLast? = some (x2, y2) := by
  have hout : ∀ r ∈ bresenham x1 y1 x2 y2, ¬ inBounds r.1 r.2 := by
    intro r hr
    obtain ⟨ha, hb, hc, hd⟩ := bresenham_mem_rect x1 y1 x2 y2 r hr
    rintro ⟨hB1, hB2, hB3, hB4⟩
    unfold same_side_out MATRIX_WIDTH MATRIX_HEIGHT at h
    unfold MATRIX_WIDTH at hB2
    unfold MATRIX_HEIGHT at hB4
    rcases h with ⟨g1, g2⟩ | ⟨g1, g2⟩ | ⟨g1, g2⟩ | ⟨g1, g2⟩
    · have : x1 ≤ r.1 ∨ x2 ≤ r.1 := by
        rcases le_total x1 x2 with hh | hh
        · exact Or.inl (by rw [min_eq_left hh] at ha; exact ha)
        · exact Or.inr (by rw [min_eq_right hh] at ha; exact ha)
      omega
    · have : r.1 ≤ x1 ∨ r.1 ≤ x2 := by
        rcases le_total x1 x2 with hh | hh
        · exact Or.inr (by rw [max_eq_right hh] at hb; exact hb)
        · exact Or.inl (by rw [max_eq_left hh] at hb; exact hb)
      omega
    · have : y1 ≤ r.2 ∨ y2 ≤ r.2 := by
        rcases le_total y1 y2 with hh | hh
        · exact Or.inl (by rw [min_eq_left hh] at hc; exact hc)
        · exact Or.inr (by rw [min_eq_right hh] at hc; exact hc)
      omega
    · have : r.2 ≤ y1 ∨ r.2 ≤ y2 := by
        rcases le_total y1 y2 with hh | hh
        · exact Or.inr (by rw [max_eq_right hh] at hd; exact hd)
        · exact Or.inl (by rw [max_eq_left hh] at hd; exact hd)
      omega
  constructor
  · intro fb curr c
    simp only [fast_draw_line]
    rw [Prod.mk.injEq]
    constructor
    · funext p
      rw [foldl_set_apply]
      rw [if_neg]
      rintro ⟨hp, hB⟩
      exact hout p hp hB
    · have hfil : (bresenham x1 y1 x2 y2).filter
          (fun r => decide (inBounds r.1 r.2)) = [] := by
        rw [List.filter_eq_nil_iff]
        intro a ha
        simp only [decide_eq_true_eq]
        exact hout a ha
      rw [hfil, List.append_nil]
  · exact (bresenham_bspec x1 y1 x2 y2).2.1

theorem draw_line_same_side_out_witness :
    (∀ (fb : FB) (curr : List (Int × Int)) (c : Nat),
        fast_draw_line fb curr (-5) (-3) (-1) 70 c = (fb, curr)) ∧
      (bresenham (-5) (-3) (-1) 70).getLast? = some (-1, 70) :=
  draw_line_same_side_out_draws_nothing (-5) (-3) (-1) 70
    (Or.inl ⟨by decide, by decide⟩)

lemma draw_line_inv (fb0 fb : FB) (curr : List (Int × Int))
    (x1 y1 x2 y2 : Int) (c : Nat) (hc : c ≠ 0) (hInv : DrawInv fb0 fb curr) :
    DrawInv fb0 (fast_draw_line fb curr x1 y1 x2 y2 c).1
      (fast_draw_line fb curr x1 y1 x2 y2 c).2 := by
  obtain ⟨hlit, hold⟩ := hInv
  constructor
  · intro p hp
    simp only [fast_draw_line] at hp ⊢
    rw [List.mem_append] at hp
    rw [foldl_set_apply]
    rcases hp with hp | hp
    · by_cases hw : p ∈ bresenham x1 y1 x2 y2 ∧ inBounds p.1 p.2
      · rw [if_pos hw]
        exact ⟨hc, hw.2⟩
      · rw [if_neg hw]
        exact hlit p hp
    · rw [List.mem_filter] at hp
      obtain ⟨hp1, hp2⟩ := hp
      rw [decide_eq_true_eq] at hp2
      rw [if_pos ⟨hp1, hp2⟩]
      exact ⟨hc, hp2⟩
  · intro p hp
    simp only [fast_draw_line] at hp ⊢
    rw [List.mem_append] at hp
    push_neg at hp
    obtain ⟨hp1, hp2⟩ := hp
    rw [foldl_set_apply, if_neg]
    · exact hold p hp1
    · rintro ⟨hm, hB⟩
      exact hp2 (List.mem_filter.mpr ⟨hm, by rw [decide_eq_true_eq]; exact hB⟩)

lemma draw_edges_inv (tv : List (Int × Int)) (fb0 : FB) :
    ∀ (es : List (Nat × Nat)) (fb : FB) (curr : List (Int × Int)),
      (∀ e ∈ es, edge_color e ≠ 0) → DrawInv fb0 fb curr →
      DrawInv fb0
        (es.foldl (fun (s : FB × List (Int × Int)) e =>
            fast_draw_line s.1 s.2 (tv.getD e.1 (0, 0)).1 (tv.getD e.1 (0, 0)).2
              (tv.getD e.2 (0, 0)).1 (tv.getD e.2 (0, 0)).2 (edge_color e))
          (fb, curr)).1
        (es.foldl (fun (s : FB × List (Int × Int)) e =>
            fast_draw_line s.1 s.2 (tv.getD e.1 (0, 0)).1 (tv.getD e.1 (0, 0)).2
              (tv.getD e.2 (0, 0)).1 (tv.getD e.2 (0, 0)).2 (edge_color e))
          (fb, curr)).2 := by
  intro es
  induction es with
  | nil =>
    intro fb curr _ h
    exact h
  | cons e t ih =>
    intro fb curr hcol h
    simp only [List.foldl_cons]
    have h1 := draw_line_inv fb0 fb curr (tv.getD e.1 (0, 0)).1
      (tv.getD e.1 (0, 0)).2 (tv.getD e.2 (0, 0)).1 (tv.getD e.2 (0, 0)).2
      (edge_color e) (hcol e (List.mem_cons_self e t)) h
    exact ih (fast_draw_line fb curr (tv.getD e.1 (0, 0)).1
        (tv.getD e.1 (0, 0)).2 (tv.getD e.2 (0, 0)).1 (tv.getD e.2 (0, 0)).2
        (edge_color e)).1
      (fast_draw_line fb curr (tv.getD e.1 (0, 0)).1 (tv.getD e.1 (0, 0)).2
        (tv.getD e.2 (0, 0)).1 (tv.getD e.2 (0, 0)).2 (edge_color e)).2
      (fun e' he' => hcol e' (List.mem_cons_of_mem e he')) h1

lemma fast_draw_cube_inv (fb : FB) (prev : List (Int × Int)) (ax ay az : Int)
    (hfb : ∀ p, fb p ≠ 0 ↔ p ∈ prev)
    (hbnd : ∀ p ∈ prev, inBounds p.1 p.2) :
    (∀ p, (fast_draw_cube fb prev ax ay az).1 p ≠ 0 ↔
        p ∈ (fast_draw_cube fb prev ax ay az).2) ∧
      (∀ p ∈ (fast_draw_cube fb prev ax ay az).2, inBounds p.1 p.2) := by
  have hcolors : ∀ e ∈ edges, edge_color e ≠ 0 := by decide
  have hDI := draw_edges_inv
    (vertices.map fun v => fast_project_to_2d (fast_rotate_point v ax ay az))
    fb edges fb []
    hcolors ⟨fun p hp => absurd hp (List.not_mem_nil p), fun p _ => rfl⟩
  obtain ⟨hlit, hold⟩ := hDI
  simp only [fast_draw_cube]
  constructor
  · intro p
    by_cases hcur : p ∈ (edges.foldl (fun (s : FB × List (Int × Int)) e =>
        fast_draw_line s.1 s.2
          ((vertices.map fun v =>
              fast_project_to_2d (fast_rotate_point v ax ay az)).getD e.1
            (0, 0)).1
          ((vertices.map fun v =>
              fast_project_to_2d (fast_rotate_point v ax ay az)).getD e.1
            (0, 0)).2
          ((vertices.map fun v =>
              fast_project_to_2d (fast_rotate_point v ax ay az)).getD e.2
            (0, 0)).1
          ((vertices.map fun v =>
              fast_project_to_2d (fast_rotate_point v ax ay az)).getD e.2
            (0, 0)).2
          (edge_color e)) (fb, [])).2
    · have hfil : p ∉ prev.filter (fun q => decide (q ∉ (edges.foldl
          (fun (s : FB × List (Int × Int)) e =>
            fast_draw_line s.1 s.2
              ((vertices.map fun v =>
                  fast_project_to_2d (fast_rotate_point v ax ay az)).getD e.1
                (0, 0)).1
              ((vertices.map fun v =>
                  fast_project_to_2d (fast_rotate_point v ax ay az)).getD e.1
                (0, 0)).2
              ((vertices.map fun v =>
                  fast_project_to_2d (fast_rotate_point v ax ay az)).getD e.2
                (0, 0)).1
              ((vertices.map fun v =>
                  fast_project_to_2d (fast_rotate_point v ax ay az)).getD e.2
                (0, 0)).2
              (edge_color e)) (fb, [])).2)) := by
        rw [List.mem_filter]
        rintro ⟨-, hq⟩
        rw [decide_eq_true_eq] at hq
        exact hq hcur
      rw [fast_clear_apply, if_neg (fun hc => hfil hc.1)]
      exact ⟨fun _ => hcur, fun _ => (hlit p hcur).1⟩
    · rw [fast_clear_apply]
      by_cases hprev : p ∈ prev
      · rw [if_pos ⟨List.mem_filter.mpr
            ⟨hprev, by rw [decide_eq_true_eq]; exact hcur⟩, hbnd p hprev⟩]
        exact ⟨fun h0 => absurd rfl h0, fun hc => absurd hc hcur⟩
      · rw [if_neg (fun hc => hprev (List.mem_filter.mp hc.1).1)]
        rw [hold p hcur]
        constructor
        · intro h0
          exact absurd ((hfb p).mp h0) hprev
        · intro hc
          exact absurd hc hcur
  · intro p hp
    exact (hlit p hp).2

/-- C4: starting from the fully cleared framebuffer with an empty
previous-pixel set, after every number of animation cycles the set of
framebuffer pixels holding a non-background color index is exactly the stored
previous-frame pixel set (which lies within bounds); and every edge is drawn
with color index 1, 2 or 3, never the background index 0. -/
theorem frame_invariant (n : Nat) :
    fb_inv (run_frames n) ∧
      ∀ e ∈ edges, edge_color e = 1 ∨ edge_color e = 2 ∨ edge_color e = 3 := by
  refine ⟨?_, by decide⟩
  induction n with
  | zero =>
    constructor
    · intro p
      simp [run_frames, init_state]
    · intro p hp
      simp [run_frames, init_state] at hp
  | succ n ih =>
    obtain ⟨ih1, ih2⟩ := ih
    have h := fast_draw_cube_inv (run_frames n).fb (run_frames n).previous_pixels
      (run_frames n).angles.1 (run_frames n).angles.2.1
      (run_frames n).angles.2.2 ih1 ih2
    simp only [run_frames, animation_step]
    exact ⟨h.1, h.2⟩

lemma write0_apply (g : FB) (x y : Int) (p : Int × Int) :
    write0 g x y p = if p = (x, y) then 0 else g p := rfl

lemma row_clear_apply (yv : Int) :
    ∀ (l : List Nat) (g : FB) (a b : Int),
      (l.foldl (fun g (x : Nat) => write0 g (x : Int) yv) g) (a, b) =
        if b = yv ∧ ∃ x ∈ l, (x : Int) = a then 0 else g (a, b) := by
  intro l
  induction l with
  | nil =>
    intro g a b
    simp
  | cons xx t ih =>
    intro g a b
    simp only [List.foldl_cons]
    rw [ih]
    by_cases hb : b = yv
    · subst hb
      by_cases hex : ∃ x ∈ t, (x : Int) = a
      · have h2 : ∃ x ∈ xx :: t, (x : Int) = a := by
          obtain ⟨x, hx1, hx2⟩ := hex
          exact ⟨x, List.mem_cons_of_mem xx hx1, hx2⟩
        rw [if_pos ⟨rfl, hex⟩, if_pos ⟨rfl, h2⟩]
      · rw [if_neg (fun hc => hex hc.2), write0_apply]
        by_cases hxa : a = (xx : Int)
        · subst hxa
          rw [if_pos rfl, if_pos ⟨rfl, ⟨xx, List.mem_cons_self xx t, rfl⟩⟩]
        · have h2 : ¬ (b = b ∧ ∃ x ∈ xx :: t, (x : Int) = a) := by
            rintro ⟨-, x, hx1, hx2⟩
            rcases List.mem_cons.mp hx1 with rfl | hx1'
            · exact hxa hx2.symm
            · exact hex ⟨x, hx1', hx2⟩
          rw [if_neg h2, if_neg (fun hc => hxa (congrArg Prod.fst hc))]
    · rw [if_neg (fun hc => hb hc.1), if_neg (fun hc => hb hc.1), write0_apply,
        if_neg (fun hc => hb (congrArg Prod.snd hc))]

lemma exists_range_width (a : Int) :
    (∃ x ∈ List.range MATRIX_WIDTH.toNat, (x : Int) = a) ↔ 0 ≤ a ∧ a < 64 := by
  constructor
  · rintro ⟨x, hx, rfl⟩
    rw [List.mem_range] at hx
    simp only [MATRIX_WIDTH] at hx
    omega
  · rintro ⟨h1, h2⟩
    refine ⟨a.toNat, ?_, by omega⟩
    rw [List.mem_range]
    simp only [MATRIX_WIDTH]
    omega

lemma rows_clear_apply :
    ∀ (l : List Nat) (g : FB) (a b : Int),
      (l.foldl (fun f (y : Nat) =>
          (List.range MATRIX_WIDTH.toNat).foldl
            (fun g (x : Nat) => write0 g (x : Int) (y : Int)) f) g) (a, b) =
        if (∃ y ∈ l, (y : Int) = b) ∧ 0 ≤ a ∧ a < 64 then 0 else g (a, b) := by
  intro l
  induction l with
  | nil =>
    intro g a b
    simp
  | cons yy t ih =>
    intro g a b
    simp only [List.foldl_cons]
    rw [ih]
    by_cases hex : ∃ y ∈ t, (y : Int) = b
    · have h2 : ∃ y ∈ yy :: t, (y : Int) = b := by
        obtain ⟨y, hy1, hy2⟩ := hex
        exact ⟨y, List.mem_cons_of_mem yy hy1, hy2⟩
      by_cases ha : 0 ≤ a ∧ a < 64
      · rw [if_pos ⟨hex, ha⟩, if_pos ⟨h2, ha⟩]
      · rw [if_neg (fun hc => ha hc.2), if_neg (fun hc => ha hc.2),
          row_clear_apply]
        rw [if_neg]
        rintro ⟨-, hx⟩
        exact ha ((exists_range_width a).mp hx)
    · rw [if_neg (fun hc => hex hc.1), row_clear_apply]
      by_cases hby : b = (yy : Int)
      · by_cases ha : 0 ≤ a ∧ a < 64
        · rw [if_pos ⟨hby, (exists_range_width a).mpr ha⟩,
            if_pos ⟨⟨yy, List.mem_cons_self yy t, hby.symm⟩, ha⟩]
        · rw [if_neg (fun hc => ha ((exists_range_width a).mp hc.2)),
            if_neg (fun hc => ha hc.2)]
      · rw [if_neg (fun hc => hby hc.1), if_neg]
        rintro ⟨⟨y, hy1, hy2⟩, -⟩
        rcases List.mem_cons.mp hy1 with rfl | hy1'
        · exact hby hy2.symm
        · exact hex ⟨y, hy1', hy2⟩

lemma clear_all_apply (fb : FB) (a b : Int) (h1 : 0 ≤ a) (h2 : a < 64)
    (h3 : 0 ≤ b) (h4 : b < 64) : clear_all fb (a, b) = 0 := by
  unfold clear_all
  rw [rows_clear_apply, if_pos]
  refine ⟨⟨b.toNat, ?_, by omega⟩, h1, h2⟩
  rw [List.mem_range]
  simp only [MATRIX_HEIGHT]
  omega

/-- C10: on every exit of the animation loop — whether after n cycles the
optional duration elapsed or a KeyboardInterrupt (stop signal) arrived — the
cleanup pass runs the full-display clear, so every pixel of the framebuffer
reads the background color 0 when control returns. -/
theorem animation_exit_clears_display (n : Nat) (x y : Int) (hx1 : 0 ≤ x)
    (hx2 : x < MATRIX_WIDTH) (hy1 : 0 ≤ y) (hy2 : y < MATRIX_HEIGHT) :
    run_animation_exit n (x, y) = 0 := by
  unfold run_animation_exit
  exact clear_all_apply _ x y hx1 (by simpa [MATRIX_WIDTH] using hx2) hy1
    (by simpa [MATRIX_HEIGHT] using hy2)

theorem animation_exit_clears_display_witness :
    run_animation_exit 2 (0, 0) = 0 :=
  animation_exit_clears_display 2 0 0 (by decide) (by decide) (by decide)
    (by decide)
